import Mathlib

/-!
Shallow embedding of `src/construction.py` from the DisplacementCalculator
repository: the `Component` tree model, the CG aggregator (`_get_cg`,
`calculate_cg`), the displaced-volume tally (`get_displaced_volume`), the CB
aggregator (`get_cb`, `calculate_cb`) and the metacentric-radius closed form
(`calculate_bm`).

Vectors are triples of scalars; numpy elementwise arithmetic on 3-arrays
becomes componentwise arithmetic on `Vec3`.  The Python program computes with
floating-point numbers; the embedding idealises that as exact arithmetic in an
ordered field.  For the tree engine we use `ℚ` so every definition is
executable and witnesses evaluate on concrete inputs; all the identities and
inequalities proved below are field/order facts that hold verbatim over `ℝ`
as well.  `calculate_bm` is the one function whose source mentions `math.pi`,
so it is embedded over `ℝ` with `Real.pi`.
-/

/-- A 3-component rational vector, standing for a numpy array of length 3. -/
abbrev Vec3 := ℚ × ℚ × ℚ

/-- Componentwise division of a vector by a scalar (numpy `v / w`).
Division by zero follows the field convention `x / 0 = 0` (numpy would emit
NaN entries and a runtime warning instead of raising). -/
def Vec3.divs (v : Vec3) (r : ℚ) : Vec3 := (v.1 / r, v.2.1 / r, v.2.2 / r)

/-- A node of the component tree (`construction.py`, class `Component`):
weight in kg, volume in m^3, a free-text label, the submersion flag
(-1 not submerged, 0 partially submerged, 1 fully submerged, line 18),
the position relative to the parent (`parent_vector`), and the ordered
list of children. -/
inductive Component : Type where
  | mk (weight volume : ℚ) (descr : String) (submerged : ℤ)
      (parent_vector : Vec3) (children : List Component)

/-- Field accessor: `self.weight`. -/
def Component.weight : Component → ℚ
  | .mk w _ _ _ _ _ => w

/-- Field accessor: `self.volume`. -/
def Component.volume : Component → ℚ
  | .mk _ v _ _ _ _ => v

/-- Field accessor: `self.submerged`. -/
def Component.submerged : Component → ℤ
  | .mk _ _ _ s _ _ => s

/-- Field accessor: `self.parent_vector`. -/
def Component.parent_vector : Component → Vec3
  | .mk _ _ _ _ pv _ => pv

/-- Field accessor: `self.children`. -/
def Component.children : Component → List Component
  | .mk _ _ _ _ _ cs => cs

mutual

/-- `Component._get_cg` (construction.py lines 107-121): post-order reduction
returning the cumulative weight of the subtree and the weight-position moment
`vector_sum_children + parent_vector * weight_sum`. -/
def Component.getCgPriv : Component → ℚ × Vec3
  | .mk w _ _ _ pv cs =>
    let child := Component.getCgPrivList cs
    let weight_sum := w + child.1
    let vector_sum_self := weight_sum • pv
    (weight_sum, child.2 + vector_sum_self)

/-- The accumulation loop of `_get_cg` over the list of children
(lines 111-114): sums child weights and child moment vectors. -/
def Component.getCgPrivList : List Component → ℚ × Vec3
  | [] => (0, 0)
  | c :: cs =>
    let r := Component.getCgPriv c
    let rs := Component.getCgPrivList cs
    (r.1 + rs.1, r.2 + rs.2)

end

/-- `Component.calculate_cg` (lines 72-82): subtracts the node's own
`parent_vector * weight` from the raw moment and divides by the total
weight; returns `(vector_sum / weight, weight)`. -/
def Component.calculate_cg (c : Component) : Vec3 × ℚ :=
  let wv := c.getCgPriv
  let weight := wv.1
  let vector_sum := wv.2 - weight • c.parent_vector
  (vector_sum.divs weight, weight)

mutual

/-- `Component.get_displaced_volume` (lines 57-70): sums the volume of every
node whose `submerged` flag is 1, and collects (in traversal order, children
first, then self) every node whose flag is 0 into a flat list. -/
def Component.get_displaced_volume : Component → ℚ × List Component
  | c@(.mk _ v _ s _ cs) =>
    let child := Component.gdvList cs
    (child.1 + (if s = 1 then v else 0),
     child.2 ++ (if s = 0 then [c] else []))

/-- The accumulation loop of `get_displaced_volume` over the children
(lines 61-64). -/
def Component.gdvList : List Component → ℚ × List Component
  | [] => (0, [])
  | c :: cs =>
    let r := Component.get_displaced_volume c
    let rs := Component.gdvList cs
    (r.1 + rs.1, r.2 ++ rs.2)

end

mutual

/-- `Component.get_cb` (lines 84-105): recursive displaced-volume moment
reduction.  A partially submerged node (flag 0) contributes volume
`self.volume * submersion_rate` at the vertical offset
`[0, 0, -(L - submersion)/2]` with `L = submersion / submersion_rate`;
a fully submerged node (flag 1) contributes its full volume with no offset. -/
def Component.get_cb : Component → ℚ → ℚ → ℚ × Vec3
  | .mk _ v _ s pv cs, submersion, submersion_rate =>
    let offset_vector : Vec3 :=
      if s = 0 then
        let L := submersion / submersion_rate
        ((0 : ℚ), (0 : ℚ), -(L - submersion) / 2)
      else (0, 0, 0)
    let displaced_volume : ℚ :=
      if s = 0 then v * submersion_rate else if s = 1 then v else 0
    let child := Component.getCbList cs submersion submersion_rate
    let self_vector_sum :=
      (displaced_volume + child.1) • pv + displaced_volume • offset_vector
    (child.1 + displaced_volume, self_vector_sum + child.2)

/-- The accumulation loop of `get_cb` over the children (lines 95-100). -/
def Component.getCbList : List Component → ℚ → ℚ → ℚ × Vec3
  | [], _, _ => (0, (0, 0, 0))
  | c :: cs, submersion, submersion_rate =>
    let r := Component.get_cb c submersion submersion_rate
    let rs := Component.getCbList cs submersion submersion_rate
    (r.1 + rs.1, r.2 + rs.2)

end

/-- The linear equilibrium solve of `calculate_cb` (lines 45-50), abstracted
over its four numeric inputs: `(weight / fluid_density - fully_submerged
volume) / pole_volume`. -/
def submersionRateOf (weight fluid_density fully_submerged pole_volume : ℚ) : ℚ :=
  (weight / fluid_density - fully_submerged) / pole_volume

/-- `Component.calculate_cb` (lines 44-55): solves the submersion rate from
the equilibrium condition, then aggregates the centre of buoyancy; returns
`(cb, displaced_volume, s, submersion_rate)`.  The `print` on line 54 is a
side effect with no bearing on the returned values. -/
def Component.calculate_cb (c : Component) (scale : ℚ)
    (fluid_density : ℚ) : Vec3 × ℚ × ℚ × ℚ :=
  let cg := c.calculate_cg
  let weight := cg.2
  let gdv := c.get_displaced_volume
  let volume := gdv.1
  let part_nodes := gdv.2
  let volume_to_displace := weight / fluid_density - volume
  let pole_volume := (part_nodes.map Component.volume).sum
  let submersion_rate := volume_to_displace / pole_volume
  let s := submersion_rate * scale
  let cbr := c.get_cb s submersion_rate
  let cb := cbr.2.divs cbr.1
  (cb, cbr.1, s, submersion_rate)

/-- `calculate_bm` (lines 163-168), over `ℝ` because the source uses
`math.pi`: second moment of `num_poles` circular members of radius `r` at
distance `y` from the centerline, divided by the displaced volume, returned
as the vector `(0, 0, bm)`. -/
noncomputable def calculate_bm (r y displaced_volume : ℝ)
    (num_poles : ℝ) : ℝ × ℝ × ℝ :=
  let pi := Real.pi
  let intertia := num_poles * (pi / 4 * r ^ 4 + pi * r ^ 2 * y ^ 2)
  let temp_bm := intertia / displaced_volume
  ((0 : ℝ), (0 : ℝ), temp_bm)

mutual

/-- All nodes of a component tree, children (recursively, in order) first and
the node itself last.  Specification-side enumeration used to state which
nodes the tally of `get_displaced_volume` counts. -/
def Component.nodes : Component → List Component
  | c@(.mk _ _ _ _ _ cs) => Component.nodesList cs ++ [c]

/-- `Component.nodes` mapped over a list of trees and concatenated. -/
def Component.nodesList : List Component → List Component
  | [] => []
  | c :: cs => Component.nodes c ++ Component.nodesList cs

end

/-- Replacement of the mutable field write `child.parent_vector = ...`
performed by `assign_child` (line 42). -/
def Component.setParentVector : Component → Vec3 → Component
  | .mk w v d s _ cs, pv => .mk w v d s pv cs

/-- `Component.assign_child` (lines 31-42): appends the child to this node's
list of children and stores the child's relative position, substituting the
zero vector when the `parent_vector` argument is `None`. -/
def Component.assign_child (parent child : Component)
    (parent_vector : Option Vec3) : Component :=
  match parent with
  | .mk w v d s pv cs =>
    .mk w v d s pv (cs ++ [child.setParentVector (parent_vector.getD (0, 0, 0))])

/-- `Component.__init__` (lines 9-29).  Lines 24-26 store the zero vector as
the node's `parent_vector` no matter what argument was passed; only when a
parent is supplied does line 29 call `assign_child`, which overwrites the
child's `parent_vector` with the argument (or the zero vector for `None`).
Returns the constructed node together with the updated parent, mirroring the
mutation of the parent's child list. -/
def Component.construct (weight volume : ℚ) (descr : String) (submerged : ℤ)
    (parent : Option Component) (parent_vector : Option Vec3) :
    Component × Option Component :=
  let self : Component := .mk weight volume descr submerged (0, 0, 0) []
  match parent with
  | none => (self, none)
  | some p =>
    (self.setParentVector (parent_vector.getD (0, 0, 0)),
     some (p.assign_child self parent_vector))

mutual

/-- Two component trees differ only in the order in which children were
attached: all scalar fields and the relative position agree, and the child
lists are, up to recursively reordered subtrees, permutations of one
another. -/
def TreePerm : Component → Component → Prop
  | .mk w1 v1 d1 s1 pv1 cs1, .mk w2 v2 d2 s2 pv2 cs2 =>
    w1 = w2 ∧ v1 = v2 ∧ d1 = d2 ∧ s1 = s2 ∧ pv1 = pv2 ∧
      TreePermChildren cs1 cs2
termination_by c _ => (sizeOf c, 2)

/-- Child lists related by reordering: some intermediate list is pointwise
`TreePerm`-related to the first and a permutation of the second. -/
def TreePermChildren (l1 l2 : List Component) : Prop :=
  ∃ mid, TreePermAll l1 mid ∧ mid.Perm l2
termination_by (sizeOf l1, 1)

/-- Pointwise `TreePerm` over two lists of equal length. -/
def TreePermAll : List Component → List Component → Prop
  | [], [] => True
  | c1 :: l1, c2 :: l2 => TreePerm c1 c2 ∧ TreePermAll l1 l2
  | _, _ => False
termination_by l _ => (sizeOf l, 0)

end

/-- Induction over component trees: to prove a property of every tree it is
enough to prove it for a node assuming it for every child. -/
def Component.inductionOn {P : Component → Prop}
    (step : ∀ w v d s pv cs, (∀ c ∈ cs, P c) → P (.mk w v d s pv cs)) :
    ∀ c, P c
  | .mk w v d s pv cs =>
    step w v d s pv cs (fun c _ => Component.inductionOn step c)
termination_by c => sizeOf c
decreasing_by
  rename_i hc
  simp only [Component.mk.sizeOf_spec]
  have := List.sizeOf_lt_of_mem hc
  omega

/-! ### Helper lemmas -/

@[simp]
theorem Component.weight_mk (w v : ℚ) (d : String) (s : ℤ) (pv : Vec3)
    (cs : List Component) : (Component.mk w v d s pv cs).weight = w := rfl

@[simp]
theorem Component.volume_mk (w v : ℚ) (d : String) (s : ℤ) (pv : Vec3)
    (cs : List Component) : (Component.mk w v d s pv cs).volume = v := rfl

@[simp]
theorem Component.submerged_mk (w v : ℚ) (d : String) (s : ℤ) (pv : Vec3)
    (cs : List Component) : (Component.mk w v d s pv cs).submerged = s := rfl

@[simp]
theorem Component.parent_vector_mk (w v : ℚ) (d : String) (s : ℤ) (pv : Vec3)
    (cs : List Component) : (Component.mk w v d s pv cs).parent_vector = pv := rfl

@[simp]
theorem Component.children_mk (w v : ℚ) (d : String) (s : ℤ) (pv : Vec3)
    (cs : List Component) : (Component.mk w v d s pv cs).children = cs := rfl

theorem Vec3.zero_eq : (0 : Vec3) = ((0 : ℚ), (0 : ℚ), (0 : ℚ)) := rfl

/-! ### C10: constructor ignores the relative position without a parent -/

/-- Claim C10: a `Component` constructed with `parent = None` ignores the
`parent_vector` argument and stores the zero vector as its relative position;
a relative position takes effect only when the node is attached to a parent
(via the constructor's `parent` argument or via `assign_child`), and
`assign_child` with `parent_vector = None` also stores the zero vector. -/
theorem construct_parent_vector_behaviour :
    (∀ (w v : ℚ) (d : String) (s : ℤ) (pva : Option Vec3),
        Component.construct w v d s none pva
          = (Component.mk w v d s (0, 0, 0) [], none))
  ∧ (∀ (w v : ℚ) (d : String) (s : ℤ) (p : Component) (pv : Vec3),
        (Component.construct w v d s (some p) (some pv)).1.parent_vector = pv)
  ∧ (∀ p c : Component, (p.assign_child c none).children
        = p.children ++ [c.setParentVector (0, 0, 0)])
  ∧ (∀ (p c : Component) (pv : Vec3), (p.assign_child c (some pv)).children
        = p.children ++ [c.setParentVector pv])
  ∧ (∀ (c : Component) (pv : Vec3), (c.setParentVector pv).parent_vector = pv) := by
  refine ⟨fun w v d s pva => rfl, fun w v d s p pv => rfl, fun p c => ?_,
    fun p c pv => ?_, fun c pv => ?_⟩
  · cases p
    simp [Component.assign_child, Component.setParentVector]
  · cases p
    simp [Component.assign_child, Component.setParentVector]
  · cases c
    rfl

/-! ### C2: CG weighted-average correctness -/

/-- Claim C2: for a root of weight zero with exactly two children of weights
`w1`, `w2` (with `w1 + w2 > 0`) at parent-frame positions `p1`, `p2` and no
grandchildren, `calculate_cg` returns the position
`(w1 * p1 + w2 * p2) / (w1 + w2)` and the total weight `w1 + w2`. -/
theorem cg_weighted_average (w1 w2 v0 va vb : ℚ) (d0 da db : String)
    (s0 sa sb : ℤ) (pv0 p1 p2 : Vec3) (h : 0 < w1 + w2) :
    Component.calculate_cg
        (.mk 0 v0 d0 s0 pv0
          [.mk w1 va da sa p1 [], .mk w2 vb db sb p2 []])
      = (Vec3.divs (w1 • p1 + w2 • p2) (w1 + w2), w1 + w2) := by
  obtain ⟨x0, y0, z0⟩ := pv0
  obtain ⟨x1, y1, z1⟩ := p1
  obtain ⟨x2, y2, z2⟩ := p2
  simp only [Component.calculate_cg, Component.getCgPriv, Component.getCgPrivList,
    Component.parent_vector_mk, Vec3.divs, Vec3.zero_eq, Prod.smul_mk,
    smul_eq_mul, Prod.mk_add_mk, Prod.mk_sub_mk, Prod.mk.injEq]
  norm_num

theorem cg_weighted_average_witness :
    Component.calculate_cg
        (.mk 0 0 "root" (-1) (0, 0, 0)
          [.mk 1 0 "a" (-1) (0, 0, 0) [], .mk 3 0 "b" (-1) (0, 0, -4) []])
      = ((0, 0, -3), 4) := by
  have h := cg_weighted_average 1 3 0 0 0 "root" "a" "b" (-1) (-1) (-1)
    (0, 0, 0) (0, 0, 0) (0, 0, -4) (by norm_num)
  rw [h]
  norm_num [Vec3.divs, Prod.smul_mk, Prod.ext_iff]

/-! ### C3: zero-weight CG query -/

/-- Counterexample to claim C3: on a tree whose total weight is zero,
`calculate_cg` does not report an invalid-configuration error to the caller;
it goes ahead with the division by zero and hands back a position/weight
pair — the division-by-zero junk value (`(0, 0, 0)` under the field
convention; NaN entries plus a runtime warning under numpy).  There is no
error path anywhere in `calculate_cg` (construction.py lines 72-82). -/
theorem cg_zero_weight_counterexample :
    Component.calculate_cg (.mk 0 5 "payload" 1 (1, 2, 3) [])
      = ((0, 0, 0), 0) := by
  simp only [Component.calculate_cg, Component.getCgPriv, Component.getCgPrivList]
  norm_num [Vec3.divs, Prod.smul_mk, Prod.ext_iff]

/-- Claim C3 amended: `calculate_cg` performs no zero-weight check.  On every
tree of total subtree weight zero it returns the pair
`(vector_sum / 0, 0)` — componentwise division by zero (NaN entries under
numpy floating point, the zero vector under the exact-field convention) —
rather than reporting an invalid-configuration error. -/
theorem cg_zero_weight_no_guard (c : Component) (h : (c.getCgPriv).1 = 0) :
    c.calculate_cg = (((0 : ℚ), (0 : ℚ), (0 : ℚ)), 0) := by
  obtain ⟨w, v, d, s, pv, cs⟩ := c
  simp only [Component.calculate_cg, Component.getCgPriv] at h ⊢
  rw [h]
  obtain ⟨pvx, pvy, pvz⟩ := pv
  simp [Vec3.divs, Prod.smul_mk, Prod.ext_iff, Prod.mk_sub_mk]

theorem cg_zero_weight_no_guard_witness :
    (Component.getCgPriv (.mk 0 7 "ballast" (-1) (4, 5, 6) [])).1 = 0
      ∧ Component.calculate_cg (.mk 0 7 "ballast" (-1) (4, 5, 6) [])
          = (((0 : ℚ), (0 : ℚ), (0 : ℚ)), 0) := by
  have h0 : (Component.getCgPriv (.mk 0 7 "ballast" (-1) (4, 5, 6) [])).1 = 0 := by
    simp [Component.getCgPriv, Component.getCgPrivList]
  exact ⟨h0, cg_zero_weight_no_guard _ h0⟩

/-! ### C5: partial-submersion offset -/

/-- Claim C5: in the CB aggregation, a PARTIALLY_SUBMERGED node (flag 0)
contributes the displaced volume `volume * rate` at the vertical centroid
offset `-(L - submersion)/2` from its nominal center, where
`L = submersion / rate`; and for `0 < rate < 1` and `submersion > 0` that
offset is strictly negative, i.e. the effective centroid lies strictly below
the node's nominal center. -/
theorem submersion_offset_sign (w v : ℚ) (d : String) (pv : Vec3)
    (cs : List Component) (submersion rate : ℚ)
    (h0 : 0 < rate) (h1 : rate < 1) (hs : 0 < submersion) :
    Component.get_cb (.mk w v d 0 pv cs) submersion rate
        = ((Component.getCbList cs submersion rate).1 + v * rate,
           ((v * rate + (Component.getCbList cs submersion rate).1) • pv
              + (v * rate) •
                  ((0 : ℚ), (0 : ℚ), -(submersion / rate - submersion) / 2))
             + (Component.getCbList cs submersion rate).2)
      ∧ -(submersion / rate - submersion) / 2 < 0 := by
  constructor
  · simp [Component.get_cb]
  · have hlt : submersion < submersion / rate := by
      rw [lt_div_iff₀ h0]
      nlinarith
    have hpos : 0 < submersion / rate - submersion := by linarith
    have : 0 < (submersion / rate - submersion) / 2 := by positivity
    linarith [neg_div 2 (submersion / rate - submersion)]

theorem submersion_offset_sign_witness :
    Component.get_cb (.mk 1 2 "pole" 0 (0, 0, 0) []) 1 (1/2)
        = ((Component.getCbList [] 1 (1/2)).1 + (2:ℚ) * (1/2),
           (((2:ℚ) * (1/2) + (Component.getCbList [] 1 (1/2)).1) • ((0:ℚ), (0:ℚ), (0:ℚ))
              + ((2:ℚ) * (1/2)) • ((0 : ℚ), (0 : ℚ), -((1:ℚ) / (1/2) - 1) / 2))
             + (Component.getCbList [] 1 (1/2)).2)
      ∧ -((1:ℚ) / (1/2) - 1) / 2 < 0 :=
  submersion_offset_sign 1 2 "pole" (0, 0, 0) [] 1 (1/2)
    (by norm_num) (by norm_num) (by norm_num)

/-! ### C4: the solved rate is surfaced unmodified, never clamped -/

/-- Claim C4: whenever the solved submersion rate lies outside `[0, 1]`,
`calculate_cb` hands it to the caller unmodified as the last entry of its
result tuple — the rate is never clamped into `[0, 1]`, so an infeasible
value is directly visible to the caller. -/
theorem rate_surfaced_not_clamped (c : Component) (scale fluid_density r : ℚ)
    (hr : r = submersionRateOf (c.calculate_cg).2 fluid_density
        (c.get_displaced_volume).1
        (((c.get_displaced_volume).2).map Component.volume).sum)
    (h : r < 0 ∨ 1 < r) :
    (c.calculate_cb scale fluid_density).2.2.2 = r
      ∧ ((c.calculate_cb scale fluid_density).2.2.2 < 0
          ∨ 1 < (c.calculate_cb scale fluid_density).2.2.2) := by
  subst hr
  exact ⟨rfl, h⟩

theorem rate_surfaced_not_clamped_witness :
    (Component.calculate_cb (.mk 2000 1 "pole" 0 (0, 0, 0) []) 1 1000).2.2.2 = 2
      ∧ ((Component.calculate_cb (.mk 2000 1 "pole" 0 (0, 0, 0) []) 1 1000).2.2.2 < 0
          ∨ 1 < (Component.calculate_cb (.mk 2000 1 "pole" 0 (0, 0, 0) []) 1 1000).2.2.2) := by
  have h2 : (2 : ℚ) = submersionRateOf
      ((Component.mk 2000 1 "pole" 0 (0, 0, 0) []).calculate_cg).2 1000
      ((Component.mk 2000 1 "pole" 0 (0, 0, 0) []).get_displaced_volume).1
      ((((Component.mk 2000 1 "pole" 0 (0, 0, 0) []).get_displaced_volume).2).map
        Component.volume).sum := by
    norm_num [submersionRateOf, Component.calculate_cg, Component.getCgPriv,
      Component.getCgPrivList, Component.get_displaced_volume, Component.gdvList]
  exact rate_surfaced_not_clamped _ 1 1000 2 h2 (Or.inr (by norm_num))

/-! ### C1: equilibrium closure -/

theorem getCbList_fst_eq (s r : ℚ) : ∀ l : List Component,
    (∀ c ∈ l, (c.get_cb s r).1 = (c.get_displaced_volume).1
        + r * (((c.get_displaced_volume).2).map Component.volume).sum) →
    (Component.getCbList l s r).1 = (Component.gdvList l).1
      + r * (((Component.gdvList l).2).map Component.volume).sum := by
  intro l
  induction l with
  | nil => intro _; simp [Component.getCbList, Component.gdvList]
  | cons c cs ih =>
    intro h
    have hc := h c (List.mem_cons_self c cs)
    have hcs := ih fun x hx => h x (List.mem_cons_of_mem c hx)
    simp only [Component.getCbList, Component.gdvList]
    rw [hc, hcs]
    simp only [List.map_append, List.sum_append]
    ring

/-- The displaced volume computed by the CB aggregation equals the
fully-submerged volume of the tally plus the rate times the summed volume of
the partially submerged nodes. -/
theorem Component.get_cb_fst (s r : ℚ) : ∀ c : Component,
    (c.get_cb s r).1 = (c.get_displaced_volume).1
      + r * (((c.get_displaced_volume).2).map Component.volume).sum := by
  intro c
  induction c using Component.inductionOn with
  | step w v d sub pv cs ih =>
    have hlist := getCbList_fst_eq s r cs ih
    simp only [Component.get_cb, Component.get_displaced_volume]
    rw [hlist]
    simp only [List.map_append, List.sum_append]
    by_cases h0 : sub = 0
    · simp [h0]
      ring
    · by_cases h1 : sub = 1
      · simp [h0, h1]
        ring
      · simp [h0, h1]

/-- Claim C1: for a tree with positive total weight, positive fluid density
and positive summed volume of the PARTIALLY_SUBMERGED nodes, the displaced
volume returned by `calculate_cb` equals the fully submerged volume plus the
solved rate times the summed partial volume, and multiplied by the fluid
density it equals the tree's total weight (exactly, in the exact-arithmetic
embedding). -/
theorem equilibrium_closure (c : Component) (scale fluid_density : ℚ)
    (hw : 0 < (c.calculate_cg).2) (hd : 0 < fluid_density)
    (hp : 0 < (((c.get_displaced_volume).2).map Component.volume).sum) :
    (c.calculate_cb scale fluid_density).2.1
        = (c.get_displaced_volume).1
          + (c.calculate_cb scale fluid_density).2.2.2
            * (((c.get_displaced_volume).2).map Component.volume).sum
      ∧ fluid_density * (c.calculate_cb scale fluid_density).2.1
          = (c.calculate_cg).2 := by
  have h3 := Component.get_cb_fst
    ((((c.calculate_cg).2 / fluid_density - (c.get_displaced_volume).1)
        / (((c.get_displaced_volume).2).map Component.volume).sum) * scale)
    (((c.calculate_cg).2 / fluid_density - (c.get_displaced_volume).1)
        / (((c.get_displaced_volume).2).map Component.volume).sum) c
  have h1 : (c.calculate_cb scale fluid_density).2.1
      = (c.get_displaced_volume).1
        + (((c.calculate_cg).2 / fluid_density - (c.get_displaced_volume).1)
            / (((c.get_displaced_volume).2).map Component.volume).sum)
          * (((c.get_displaced_volume).2).map Component.volume).sum := h3
  constructor
  · exact h1
  · rw [h1]
    have hP : (((c.get_displaced_volume).2).map Component.volume).sum ≠ 0 :=
      ne_of_gt hp
    have hd' : fluid_density ≠ 0 := ne_of_gt hd
    field_simp
    ring

theorem equilibrium_closure_witness :
    (Component.calculate_cb
        (.mk 1500 1 "hull" 1 (0, 0, 0) [.mk 0 1 "pole" 0 (0, 0, 0) []]) 1 1000).2.1
        = ((Component.mk 1500 1 "hull" 1 (0, 0, 0)
              [.mk 0 1 "pole" 0 (0, 0, 0) []]).get_displaced_volume).1
          + (Component.calculate_cb
              (.mk 1500 1 "hull" 1 (0, 0, 0) [.mk 0 1 "pole" 0 (0, 0, 0) []]) 1 1000).2.2.2
            * ((((Component.mk 1500 1 "hull" 1 (0, 0, 0)
                  [.mk 0 1 "pole" 0 (0, 0, 0) []]).get_displaced_volume).2).map
                Component.volume).sum
      ∧ 1000 * (Component.calculate_cb
            (.mk 1500 1 "hull" 1 (0, 0, 0) [.mk 0 1 "pole" 0 (0, 0, 0) []]) 1 1000).2.1
          = ((Component.mk 1500 1 "hull" 1 (0, 0, 0)
                [.mk 0 1 "pole" 0 (0, 0, 0) []]).calculate_cg).2 :=
  equilibrium_closure _ 1 1000
    (by norm_num [Component.calculate_cg, Component.getCgPriv, Component.getCgPrivList])
    (by norm_num)
    (by norm_num [Component.get_displaced_volume, Component.gdvList])

/-! ### C6: displaced-volume tally -/

theorem tally_list (l : List Component)
    (h : ∀ c ∈ l,
        (c.get_displaced_volume).1
            = (((c.nodes).filter fun n => n.submerged == 1).map Component.volume).sum
          ∧ (c.get_displaced_volume).2 = (c.nodes).filter fun n => n.submerged == 0) :
    (Component.gdvList l).1
        = (((Component.nodesList l).filter fun n => n.submerged == 1).map
            Component.volume).sum
      ∧ (Component.gdvList l).2
          = (Component.nodesList l).filter fun n => n.submerged == 0 := by
  induction l with
  | nil => simp [Component.gdvList, Component.nodesList]
  | cons c cs ih =>
    obtain ⟨h1, h2⟩ := h c (List.mem_cons_self c cs)
    obtain ⟨ih1, ih2⟩ := ih fun x hx => h x (List.mem_cons_of_mem c hx)
    simp only [Component.gdvList, Component.nodesList, List.filter_append,
      List.map_append, List.sum_append]
    exact ⟨by rw [h1, ih1], by rw [h2, ih2]⟩

/-- Claim C6: `get_displaced_volume` returns (a) the sum of the volumes of
exactly the nodes whose submersion flag is 1 (FULLY_SUBMERGED), counted
per-node regardless of any ancestor's flag, and (b) the flat list of exactly
the nodes whose flag is 0 (PARTIALLY_SUBMERGED), as raw references; nodes
with flag -1 (NOT_SUBMERGED) contribute neither volume nor a list entry. -/
theorem displaced_volume_tally : ∀ c : Component,
    (c.get_displaced_volume).1
        = (((c.nodes).filter fun n => n.submerged == 1).map Component.volume).sum
      ∧ (c.get_displaced_volume).2 = (c.nodes).filter fun n => n.submerged == 0 := by
  intro c
  induction c using Component.inductionOn with
  | step w v d s pv cs ih =>
    obtain ⟨hl1, hl2⟩ := tally_list cs ih
    simp only [Component.get_displaced_volume, Component.nodes, List.filter_append,
      List.map_append, List.sum_append]
    constructor
    · rw [hl1]
      by_cases h1 : s = 1
      · simp [h1, List.filter]
      · have hb : (s == (1 : ℤ)) = false := beq_eq_false_iff_ne.mpr h1
        simp [h1, List.filter, hb]
    · rw [hl2]
      by_cases h0 : s = 0
      · simp [h0, List.filter]
      · have hb : (s == (0 : ℤ)) = false := beq_eq_false_iff_ne.mpr h0
        simp [h0, List.filter, hb]

/-! ### C7: rate monotonicity -/

/-- Claim C7: with the fully-submerged volume and a positive summed partial
volume held fixed and the fluid density positive, the solved submersion rate
is strictly increasing in the total weight; with positive total weight and
the volumes held fixed, strictly decreasing the fluid density strictly
increases the solved rate.  The last conjunct ties the abstract solve
`submersionRateOf` to the rate returned by `calculate_cb`. -/
theorem rate_monotonicity :
    (∀ fluid_density fully pole w1 w2 : ℚ, 0 < fluid_density → 0 < pole →
        w1 < w2 → submersionRateOf w1 fluid_density fully pole
          < submersionRateOf w2 fluid_density fully pole)
  ∧ (∀ w fully pole d1 d2 : ℚ, 0 < w → 0 < pole → 0 < d1 → d1 < d2 →
        submersionRateOf w d2 fully pole < submersionRateOf w d1 fully pole)
  ∧ (∀ (c : Component) (scale fluid_density : ℚ),
        (c.calculate_cb scale fluid_density).2.2.2
          = submersionRateOf (c.calculate_cg).2 fluid_density
              (c.get_displaced_volume).1
              (((c.get_displaced_volume).2).map Component.volume).sum) := by
  refine ⟨?_, ?_, fun c scale fluid_density => rfl⟩
  · intro fluid_density fully pole w1 w2 hd hpole hw
    unfold submersionRateOf
    have h1 : w1 / fluid_density < w2 / fluid_density := by gcongr
    gcongr
  · intro w fully pole d1 d2 hw hpole h1 h12
    unfold submersionRateOf
    have h2 : w / d2 < w / d1 := div_lt_div_of_pos_left hw h1 h12
    gcongr

theorem rate_monotonicity_witness :
    submersionRateOf 1000 1000 0 1 < submersionRateOf 2000 1000 0 1
      ∧ submersionRateOf 1000 1000 0 1 < submersionRateOf 1000 500 0 1
      ∧ (Component.calculate_cb (.mk 2000 1 "pole" 0 (0, 0, 0) []) 2 500).2.2.2
          = submersionRateOf
              ((Component.mk 2000 1 "pole" 0 (0, 0, 0) []).calculate_cg).2 500
              ((Component.mk 2000 1 "pole" 0 (0, 0, 0) []).get_displaced_volume).1
              ((((Component.mk 2000 1 "pole" 0 (0, 0, 0)
                  []).get_displaced_volume).2).map Component.volume).sum :=
  ⟨rate_monotonicity.1 1000 0 1 1000 2000 (by norm_num) (by norm_num) (by norm_num),
   rate_monotonicity.2.1 1000 0 1 500 1000 (by norm_num) (by norm_num)
     (by norm_num) (by norm_num),
   rate_monotonicity.2.2 _ 2 500⟩

/-! ### C9: BM closed form -/

/-- Claim C9: for every radius `r`, half-span `y`, member count `n` and
nonzero displaced volume `V`, `calculate_bm` returns the vector
`(0, 0, n * (pi/4 * r^4 + pi * r^2 * y^2) / V)`; at `n = 4`, `r = 0.055`,
`y = 0.35`, `V = 0.05` the horizontal entries are zero and the vertical
entry is approximately `0.0936` (within `0.0002`; its value is
`0.0298280125 * pi` which is about `0.09371`). -/
theorem bm_closed_form :
    (∀ r y V n : ℝ, V ≠ 0 → calculate_bm r y V n
        = ((0 : ℝ), (0 : ℝ),
           n * (Real.pi / 4 * r ^ 4 + Real.pi * r ^ 2 * y ^ 2) / V))
  ∧ (calculate_bm 0.055 0.35 0.05 4).1 = 0
  ∧ (calculate_bm 0.055 0.35 0.05 4).2.1 = 0
  ∧ |(calculate_bm 0.055 0.35 0.05 4).2.2 - 0.0936| < 0.0002 := by
  refine ⟨fun r y V n _ => rfl, rfl, rfl, ?_⟩
  have hl := Real.pi_gt_d6
  have hu := Real.pi_lt_d6
  have hz : (calculate_bm 0.055 0.35 0.05 4).2.2
      = 4 * (Real.pi / 4 * (0.055 : ℝ) ^ 4 + Real.pi * (0.055 : ℝ) ^ 2
          * (0.35 : ℝ) ^ 2) / 0.05 := rfl
  rw [hz, abs_lt]
  norm_num
  constructor <;> nlinarith

theorem bm_closed_form_witness :
    calculate_bm 1 1 1 1
      = ((0 : ℝ), (0 : ℝ),
         1 * (Real.pi / 4 * (1 : ℝ) ^ 4 + Real.pi * (1 : ℝ) ^ 2 * (1 : ℝ) ^ 2) / 1) :=
  bm_closed_form.1 1 1 1 1 (by norm_num)

/-! ### C8: child-order invariance -/

theorem getCgPrivList_eq_sum (l : List Component) :
    Component.getCgPrivList l = (l.map Component.getCgPriv).sum := by
  induction l with
  | nil => simp [Component.getCgPrivList]
  | cons c cs ih =>
    simp [Component.getCgPrivList, ih, Prod.ext_iff]

theorem getCbList_eq_sum (s r : ℚ) (l : List Component) :
    Component.getCbList l s r = (l.map fun c => c.get_cb s r).sum := by
  induction l with
  | nil => simp [Component.getCbList, Prod.ext_iff]
  | cons c cs ih =>
    simp [Component.getCbList, ih, Prod.ext_iff]

theorem gdvList_fst_eq_sum (l : List Component) :
    (Component.gdvList l).1 = (l.map fun c => (c.get_displaced_volume).1).sum := by
  induction l with
  | nil => simp [Component.gdvList]
  | cons c cs ih =>
    simp [Component.gdvList, ih]

theorem gdvList_volume_eq_sum (l : List Component) :
    (((Component.gdvList l).2).map Component.volume).sum
      = (l.map fun c =>
          (((c.get_displaced_volume).2).map Component.volume).sum).sum := by
  induction l with
  | nil => simp [Component.gdvList]
  | cons c cs ih =>
    simp [Component.gdvList, List.map_append, List.sum_append, ih]

theorem treePermAll_map {α : Type} (f : Component → α) :
    ∀ l1 l2, TreePermAll l1 l2 →
      (∀ c1 ∈ l1, ∀ c2, TreePerm c1 c2 → f c1 = f c2) →
      l1.map f = l2.map f := by
  intro l1
  induction l1 with
  | nil =>
    intro l2 h _
    cases l2 with
    | nil => rfl
    | cons c2 t2 => simp [TreePermAll] at h
  | cons c cs ih =>
    intro l2 h hf
    cases l2 with
    | nil => simp [TreePermAll] at h
    | cons c2 t2 =>
      simp only [TreePermAll] at h
      obtain ⟨h1, h2⟩ := h
      simp only [List.map_cons]
      rw [hf c (List.mem_cons_self c cs) c2 h1,
        ih t2 h2 fun x hx y hy => hf x (List.mem_cons_of_mem c hx) y hy]

/-- The aggregate quantities used by `calculate_cg` and `calculate_cb` are
invariant under reordering children anywhere in the tree. -/
theorem treePerm_invariants : ∀ t1 t2 : Component, TreePerm t1 t2 →
    t1.getCgPriv = t2.getCgPriv
  ∧ (∀ s r, t1.get_cb s r = t2.get_cb s r)
  ∧ (t1.get_displaced_volume).1 = (t2.get_displaced_volume).1
  ∧ (((t1.get_displaced_volume).2).map Component.volume).sum
      = (((t2.get_displaced_volume).2).map Component.volume).sum
  ∧ t1.parent_vector = t2.parent_vector := by
  intro t1
  induction t1 using Component.inductionOn with
  | step w v d s pv cs1 ih =>
    intro t2 hperm
    obtain ⟨w2, v2, d2, s2, pv2, cs2⟩ := t2
    simp only [TreePerm] at hperm
    obtain ⟨hw, hv, hd, hs, hpv, hmid⟩ := hperm
    subst hw; subst hv; subst hd; subst hs; subst hpv
    simp only [TreePermChildren] at hmid
    obtain ⟨mid, hall, hp⟩ := hmid
    refine ⟨?_, ?_, ?_, ?_, rfl⟩
    · have hmap : cs1.map Component.getCgPriv = mid.map Component.getCgPriv :=
        treePermAll_map _ cs1 mid hall fun c1 h1 c2 hp2 => (ih c1 h1 c2 hp2).1
      have hsum : (cs1.map Component.getCgPriv).sum
          = (cs2.map Component.getCgPriv).sum := by
        rw [hmap]
        exact (hp.map Component.getCgPriv).sum_eq
      simp only [Component.getCgPriv]
      rw [getCgPrivList_eq_sum, getCgPrivList_eq_sum, hsum]
    · intro sub rate
      have hmap : cs1.map (fun c => c.get_cb sub rate)
          = mid.map (fun c => c.get_cb sub rate) :=
        treePermAll_map _ cs1 mid hall fun c1 h1 c2 hp2 =>
          (ih c1 h1 c2 hp2).2.1 sub rate
      have hsum : (cs1.map fun c => c.get_cb sub rate).sum
          = (cs2.map fun c => c.get_cb sub rate).sum := by
        rw [hmap]
        exact (hp.map _).sum_eq
      simp only [Component.get_cb]
      rw [getCbList_eq_sum, getCbList_eq_sum, hsum]
    · have hmap : cs1.map (fun c => (c.get_displaced_volume).1)
          = mid.map fun c => (c.get_displaced_volume).1 :=
        treePermAll_map _ cs1 mid hall fun c1 h1 c2 hp2 => (ih c1 h1 c2 hp2).2.2.1
      have hsum : (cs1.map fun c => (c.get_displaced_volume).1).sum
          = (cs2.map fun c => (c.get_displaced_volume).1).sum := by
        rw [hmap]
        exact (hp.map _).sum_eq
      simp only [Component.get_displaced_volume]
      rw [gdvList_fst_eq_sum, gdvList_fst_eq_sum, hsum]
    · have hmap : cs1.map (fun c => (((c.get_displaced_volume).2).map
            Component.volume).sum)
          = mid.map fun c => (((c.get_displaced_volume).2).map
            Component.volume).sum :=
        treePermAll_map _ cs1 mid hall fun c1 h1 c2 hp2 => (ih c1 h1 c2 hp2).2.2.2.1
      have hsum : (cs1.map fun c => (((c.get_displaced_volume).2).map
              Component.volume).sum).sum
          = (cs2.map fun c => (((c.get_displaced_volume).2).map
              Component.volume).sum).sum := by
        rw [hmap]
        exact (hp.map _).sum_eq
      simp only [Component.get_displaced_volume]
      by_cases h0 : s = 0 <;>
        simp [h0, List.map_append, List.sum_append, gdvList_volume_eq_sum, hsum]

/-- Claim C8: two component trees that differ only in the order in which the
children of any parent were attached produce identical CG results (position
and total weight) and identical CB results (position, displaced volume,
submersion depth and rate). -/
theorem child_order_invariance (t1 t2 : Component) (h : TreePerm t1 t2)
    (scale fluid_density : ℚ) :
    t1.calculate_cg = t2.calculate_cg
      ∧ t1.calculate_cb scale fluid_density = t2.calculate_cb scale fluid_density := by
  obtain ⟨hcg, hcb, hv1, hv2, hpv⟩ := treePerm_invariants t1 t2 h
  have hccg : t1.calculate_cg = t2.calculate_cg := by
    simp only [Component.calculate_cg]
    rw [hcg, hpv]
  refine ⟨hccg, ?_⟩
  simp only [Component.calculate_cb]
  rw [hccg, hv1, hv2, hcb]

theorem treePermAll_refl_of (l : List Component)
    (h : ∀ c ∈ l, TreePerm c c) : TreePermAll l l := by
  induction l with
  | nil => simp [TreePermAll]
  | cons c cs ih =>
    simp only [TreePermAll]
    exact ⟨h c (List.mem_cons_self c cs),
      ih fun x hx => h x (List.mem_cons_of_mem c hx)⟩

theorem treePerm_refl : ∀ c : Component, TreePerm c c := by
  intro c
  induction c using Component.inductionOn with
  | step w v d s pv cs ih =>
    simp only [TreePerm, TreePermChildren, true_and]
    exact ⟨cs, treePermAll_refl_of cs ih, List.Perm.refl cs⟩

theorem child_order_invariance_witness :
    (Component.mk 0 0 "root" (-1) (0, 0, 0)
        [.mk 1 2 "a" 1 (1, 0, 0) [], .mk 3 4 "b" 0 (0, 1, 0) []]).calculate_cg
      = (Component.mk 0 0 "root" (-1) (0, 0, 0)
        [.mk 3 4 "b" 0 (0, 1, 0) [], .mk 1 2 "a" 1 (1, 0, 0) []]).calculate_cg
  ∧ (Component.mk 0 0 "root" (-1) (0, 0, 0)
        [.mk 1 2 "a" 1 (1, 0, 0) [], .mk 3 4 "b" 0 (0, 1, 0) []]).calculate_cb 1 1000
      = (Component.mk 0 0 "root" (-1) (0, 0, 0)
        [.mk 3 4 "b" 0 (0, 1, 0) [], .mk 1 2 "a" 1 (1, 0, 0) []]).calculate_cb 1 1000 :=
  child_order_invariance _ _
    (by
      simp only [TreePerm, TreePermChildren, true_and]
      exact ⟨[Component.mk 1 2 "a" 1 (1, 0, 0) [], Component.mk 3 4 "b" 0 (0, 1, 0) []],
        treePermAll_refl_of _ fun c _ => treePerm_refl c,
        List.Perm.swap (Component.mk 3 4 "b" 0 (0, 1, 0) [])
          (Component.mk 1 2 "a" 1 (1, 0, 0) []) []⟩)
    1 1000
